import Mathlib

/-
Verification of the datasapling generator (`src/main.py`, class `DataGenerator`).

The Python program is shallowly embedded:
  * Python dicts become ordered association lists (`Dict V`); assignment
    `d[k] = v` replaces the first entry with key `k` in place (keeping its
    position) and appends a new entry otherwise, matching CPython's
    insertion-ordered dict semantics.
  * YAML scalar/collection values become the inductive `Val`.
  * The Faker collaborator becomes `Env`: a partial map from method names to
    value streams (`getattr` failing is `none`), plus streams for
    `fake.name()` and `datetime.now()`.
  * Exceptions become `Except String`; an uncaught exception aborts the
    traversal of the `datasets` mapping, exactly as in `generate`.
  * Filesystem reads become a function from paths to `Option (Option Config)`
    (absent file / present file with its parsed YAML document, where the
    document itself may be null).
  * Writing a file is recorded as a `FileWrite` (path, separator, table);
    `print` calls are recorded as log lines.
-/

namespace DataSapling

/-- Embedded YAML / Python values appearing in configurations. -/
inductive Val : Type where
  | vInt : Int → Val
  | vStr : String → Val
  | vBool : Bool → Val
  | vList : List Val → Val

/-- A Python dict with string keys: an insertion-ordered association list. -/
abbrev Dict (V : Type) : Type := List (String × V)

/-- Python `d.get(k)` / `d[k]`: the value at the first entry with key `k`. -/
def dictGet? {V : Type} (d : Dict V) (k : String) : Option V :=
  match d with
  | [] => none
  | (k', v) :: rest => if k' = k then some v else dictGet? rest k

/-- Python `d[k] = v` on an insertion-ordered dict: replace the first entry
with key `k` in place, or append a fresh entry at the end. -/
def dictInsert {V : Type} (d : Dict V) (k : String) (v : V) : Dict V :=
  match d with
  | [] => [(k, v)]
  | (k', v') :: rest => if k' = k then (k, v) :: rest else (k', v') :: dictInsert rest k v

/-- Python `d.update(e)`: assign every entry of `e` into `d`, in order. -/
def dictUpdate {V : Type} (d e : Dict V) : Dict V :=
  e.foldl (fun acc kv => dictInsert acc kv.1 kv.2) d

/-- The key sequence (column order) of a dict. -/
def dictKeys {V : Type} (d : Dict V) : List String :=
  d.map Prod.fst

/-- `DataGenerator._merge_configs` (main.py:60-64): `merged = global.copy();
merged.update(dataset); return merged`, as a pure value-level function. -/
def merge_configs {V : Type} (global_config dataset_config : Dict V) : Dict V :=
  dictUpdate global_config dataset_config

/-- Python truthiness of a value, as used by `if metadata_config.get('enable', False)`. -/
def asBool : Val → Bool
  | .vInt n => n ≠ 0
  | .vStr s => s ≠ ""
  | .vBool b => b
  | .vList l => !l.isEmpty

/-- The elements of a list value; iteration over anything else is not exercised. -/
def asList : Val → List Val
  | .vList l => l
  | _ => []

/-- The string carried by a value (configuration `directory` / `format` entries). -/
def asStr : Val → String
  | .vStr s => s
  | .vInt n => toString n
  | .vBool b => toString b
  | .vList _ => ""

/-- A field spec: `{name: ..., type: ...}` (both keys are required by the code,
which subscripts `field['name']` and `field['type']`). -/
structure Field where
  name : String
  ftype : String
  deriving DecidableEq, Repr

/-- A dataset spec, read with `.get` and a default for every key
(main.py:25,27,28,30). -/
structure DatasetConfig where
  rows : Option Int := none
  fields : Option (List Field) := none
  metadata : Option (Dict Val) := none
  output : Option (Dict Val) := none

/-- The `global` section: optional `metadata` and `output` sub-dicts (main.py:12-14). -/
structure GlobalConfig where
  metadata : Option (Dict Val) := none
  output : Option (Dict Val) := none

/-- A parsed configuration document: optional `global` and `datasets` sections. -/
structure Config where
  globalSection : Option GlobalConfig := none
  datasets : Option (List (String × DatasetConfig)) := none

/-- The `{}` returned by `_load_config` for a missing file. -/
def emptyConfig : Config := {}

/-- The Faker / clock collaborators: `methods s` is `getattr(self.fake, s)`
(`none` when the attribute is missing, which raises in Python); each producer
is an opaque stream of synthetic values indexed by call number. `nameGen`
models `self.fake.name()` and `now` models `datetime.now()`. -/
structure Env where
  methods : String → Option (Nat → Val)
  nameGen : Nat → Val
  now : Nat → Val

/-- The field loop of `generate` (main.py:30-34): for each field in order,
`getattr(self.fake, field['type'])` — an unknown type raises `AttributeError` —
then a column of `num_rows` generated values is assigned at the field's name. -/
def buildFields (env : Env) (n : Nat) : List Field → Dict (List Val) → Except String (Dict (List Val))
  | [], data => .ok data
  | f :: rest, data =>
    match env.methods f.ftype with
    | none => .error ("AttributeError: 'Faker' object has no attribute " ++ f.ftype)
    | some gen => buildFields env n rest (dictInsert data f.name ((List.range n).map gen))

/-- One iteration of the metadata loop (main.py:37-41): a recognized name gets
a column of `num_rows` timestamps or person names; anything else is skipped. -/
def metaStep (env : Env) (n : Nat) (data : Dict (List Val)) (mf : Val) : Dict (List Val) :=
  match mf with
  | .vStr s =>
    if s = "created_at" ∨ s = "modified_at" then
      dictInsert data s ((List.range n).map env.now)
    else if s = "created_by" ∨ s = "modified_by" then
      dictInsert data s ((List.range n).map env.nameGen)
    else data
  | _ => data

/-- The metadata loop over `metadata_config.get('fields', [])`. -/
def metaLoop (env : Env) (n : Nat) : List Val → Dict (List Val) → Dict (List Val)
  | [], data => data
  | mf :: rest, data => metaLoop env n rest (metaStep env n data mf)

/-- The metadata block of `generate` (main.py:36-41), guarded by the truthiness
of `metadata_config.get('enable', False)`. -/
def applyMetadata (env : Env) (n : Nat) (mcfg : Dict Val) (data : Dict (List Val)) : Dict (List Val) :=
  if asBool ((dictGet? mcfg "enable").getD (.vBool false)) then
    metaLoop env n (asList ((dictGet? mcfg "fields").getD (.vList []))) data
  else data

/-- Building one dataset's table: the field loop starting from `data = {}`,
then the metadata block. -/
def buildTable (env : Env) (n : Nat) (fields : List Field) (mcfg : Dict Val) :
    Except String (Dict (List Val)) :=
  (buildFields env n fields []).map (applyMetadata env n mcfg)

/-- `num_rows = dataset_config.get('rows', 100)` (main.py:25). -/
def resolvedRows (dc : DatasetConfig) : Int :=
  dc.rows.getD 100

/-- Effective metadata config (main.py:27): global merged with
`dataset_config.get('metadata', {})`. -/
def effectiveMetadata (gm : Dict Val) (dc : DatasetConfig) : Dict Val :=
  merge_configs gm (dc.metadata.getD [])

/-- Effective output config (main.py:28). -/
def effectiveOutput (go : Dict Val) (dc : DatasetConfig) : Dict Val :=
  merge_configs go (dc.output.getD [])

/-- `output_config.get('format', 'csv')` on the effective output config. -/
def effectiveFormat (go : Dict Val) (dc : DatasetConfig) : String :=
  asStr ((dictGet? (effectiveOutput go dc) "format").getD (.vStr "csv"))

/-- `output_config.get('directory', 'output/')` on the effective output config. -/
def effectiveDirectory (go : Dict Val) (dc : DatasetConfig) : String :=
  asStr ((dictGet? (effectiveOutput go dc) "directory").getD (.vStr "output/"))

/-- `os.path.join(directory, file)` for the shapes this program produces: the
separator is inserted unless the directory is empty or already ends in `/`
(the trailing-slash test is phrased on the character list so that it
evaluates on literals). -/
def joinPath (dir file : String) : String :=
  if dir = "" then file
  else if dir.data.getLast? = some '/' then dir ++ file
  else dir ++ "/" ++ file

/-- A recorded call to `df.to_csv(output_file, sep, index=False)`: the pandas
serialization itself is an external collaborator, so we keep the table. -/
structure FileWrite where
  path : String
  sep : String
  table : Dict (List Val)

/-- The body of `generate`'s per-dataset loop (main.py:24-58): resolve rows and
the effective configs, build the table (any exception propagates), log the
progress notice, then either record a csv/tsv write or log the
unsupported-format diagnostic and write nothing. -/
def processDataset (env : Env) (gm go : Dict Val) (name : String) (dc : DatasetConfig) :
    Except String (List String × Option FileWrite) :=
  let numRows : Int := resolvedRows dc
  let n : Nat := numRows.toNat
  let mcfg := effectiveMetadata gm dc
  match buildTable env n (dc.fields.getD []) mcfg with
  | .error e => .error e
  | .ok df =>
    let log1 := "Generated " ++ toString numRows ++ " rows for dataset '" ++ name ++ "'"
    let dir := effectiveDirectory go dc
    let fmt := effectiveFormat go dc
    let file := joinPath dir (name ++ "." ++ fmt)
    if fmt = "csv" then .ok ([log1], some { path := file, sep := ",", table := df })
    else if fmt = "tsv" then .ok ([log1], some { path := file, sep := "\t", table := df })
    else .ok ([log1, "Unsupported output format: " ++ fmt], none)

/-- The traversal of `self.config.get('datasets', {}).items()` (main.py:23).
There is no exception handler in `generate`, so an error raised for one
dataset stops the traversal: accumulated logs and writes up to that point are
kept, the remaining datasets are never reached. -/
def runDatasets (env : Env) (gm go : Dict Val) :
    List (String × DatasetConfig) → List String × List FileWrite × Option String
  | [] => ([], [], none)
  | (name, dc) :: rest =>
    match processDataset env gm go name dc with
    | .error e => ([], [], some e)
    | .ok (logs, w) =>
      let r := runDatasets env gm go rest
      (logs ++ r.1, w.toList ++ r.2.1, r.2.2)

/-- The state built by `DataGenerator.__init__` (main.py:8-14). -/
structure Generator where
  conf : Config
  global_metadata : Dict Val
  global_output : Dict Val

/-- A filesystem: `none` when the path does not exist, otherwise the parsed
YAML document, which is `none` for a null (empty) document. -/
abbrev FS : Type := String → Option (Option Config)

/-- `DataGenerator._load_config` (main.py:16-20): a missing path yields `{}`;
an existing path yields whatever `yaml.safe_load` parsed (possibly null). -/
def load_config (fs : FS) (config_path : String) : Option Config :=
  match fs config_path with
  | none => some emptyConfig
  | some doc => doc

/-- `DataGenerator.__init__` (main.py:8-14): load the config, then read
`config.get('global', {})` and its `metadata` / `output` sub-dicts. When the
loaded document is null, `.get` on `None` raises `AttributeError`. -/
def initGenerator (fs : FS) (config_path : String) : Except String Generator :=
  match load_config fs config_path with
  | none => .error "AttributeError: 'NoneType' object has no attribute 'get'"
  | some c =>
    let g := c.globalSection.getD {}
    .ok { conf := c
          global_metadata := g.metadata.getD []
          global_output := g.output.getD [] }

/-- `DataGenerator.generate` (main.py:22-58): run every dataset in declaration
order, stopping early if an exception propagates. Returns logs, file writes
and the propagated exception, if any. -/
def generate (gen : Generator) (env : Env) : List String × List FileWrite × Option String :=
  runDatasets env gen.global_metadata gen.global_output (gen.conf.datasets.getD [])


/-! ### Dictionary lemmas -/

theorem dictGet?_dictInsert {V : Type} (d : Dict V) (k q : String) (v : V) :
    dictGet? (dictInsert d k v) q = if k = q then some v else dictGet? d q := by
  induction d with
  | nil => by_cases h : k = q <;> simp [dictInsert, dictGet?, h]
  | cons kv rest ih =>
    obtain ⟨k0, v0⟩ := kv
    by_cases h0 : k0 = k
    · subst h0
      by_cases h : k0 = q <;> simp [dictInsert, dictGet?, h]
    · by_cases h : k0 = q
      · have hk : ¬ k = q := fun he => h0 (h.trans he.symm)
        have hq : ¬ q = k := fun he => hk he.symm
        simp [dictInsert, dictGet?, h0, h, hk, hq]
      · simp [dictInsert, dictGet?, h0, h, ih]

theorem dictGet?_eq_none_of_not_mem {V : Type} (d : Dict V) (k : String)
    (h : k ∉ dictKeys d) : dictGet? d k = none := by
  induction d with
  | nil => rfl
  | cons kv rest ih =>
    obtain ⟨k0, v0⟩ := kv
    simp only [dictKeys, List.map_cons, List.mem_cons] at h
    push_neg at h
    have h1 : ¬ k0 = k := fun he => h.1 he.symm
    simp [dictGet?, h1, ih (by simpa [dictKeys] using h.2)]

theorem dictUpdate_cons {V : Type} (d : Dict V) (kv : String × V) (rest : Dict V) :
    dictUpdate d (kv :: rest) = dictUpdate (dictInsert d kv.1 kv.2) rest := rfl

theorem dictGet?_dictUpdate {V : Type} (l : Dict V) (hl : (dictKeys l).Nodup)
    (g : Dict V) (k : String) :
    dictGet? (dictUpdate g l) k = ((dictGet? l k).orElse fun _ => dictGet? g k) := by
  induction l generalizing g with
  | nil => rfl
  | cons kv rest ih =>
    obtain ⟨k0, v0⟩ := kv
    simp only [dictKeys, List.map_cons, List.nodup_cons] at hl
    rw [dictUpdate_cons]
    dsimp only
    rw [ih hl.2 (dictInsert g k0 v0)]
    by_cases h : k0 = k
    · subst h
      have : dictGet? rest k0 = none :=
        dictGet?_eq_none_of_not_mem rest k0 (by simpa [dictKeys] using hl.1)
      simp [dictGet?, this, dictGet?_dictInsert]
    · simp [dictGet?, h, dictGet?_dictInsert]

/-! ### Claim C3 -/

/-- Claim C3: merging a global and a local mapping returns the global mapping
with every key present in the local one replaced by the local value (shallow,
key-by-key, local wins); in particular the three concrete examples from the
spec hold, insertion order included. -/
theorem merge_configs_override :
    (∀ (V : Type) (g l : Dict V), (dictKeys l).Nodup →
      ∀ k, dictGet? (merge_configs g l) k = ((dictGet? l k).orElse fun _ => dictGet? g k)) ∧
    merge_configs [("a", (1 : Int)), ("b", 2)] [("b", 9)] = [("a", 1), ("b", 9)] ∧
    merge_configs [("a", (1 : Int))] [] = [("a", 1)] ∧
    merge_configs ([] : Dict Int) [("x", 1)] = [("x", 1)] := by
  refine ⟨fun V g l hl k => dictGet?_dictUpdate l hl g k, ?_, rfl, rfl⟩
  rfl

/-- Witness for C3: the general merge property applied at the spec's first
concrete example, at key `b` where the local mapping wins. -/
theorem merge_configs_override_witness :
    dictGet? (merge_configs [("a", (1 : Int)), ("b", 2)] [("b", 9)]) "b" = some 9 := by
  have h := merge_configs_override.1 Int [("a", (1 : Int)), ("b", 2)] [("b", 9)]
    (by simp [dictKeys]) "b"
  simpa using h

/-! ### Heap-level model of `_merge_configs` (for the frame claim C7)

Python dicts are mutable heap objects; to state that `_merge_configs` mutates
neither input we model a store of dict cells and re-run the method's three
statements against it: `merged = global_config.copy()` allocates a fresh cell
holding a copy, `merged.update(dataset_config)` mutates only that fresh cell,
and the fresh reference is returned. -/

structure Store where
  cells : List (Dict Val)

def Store.read (s : Store) (r : Nat) : Option (Dict Val) := s.cells[r]?

def Store.write (s : Store) (r : Nat) (d : Dict Val) : Store := ⟨s.cells.set r d⟩

def Store.alloc (s : Store) (d : Dict Val) : Store × Nat := (⟨s.cells ++ [d]⟩, s.cells.length)

/-- `DataGenerator._merge_configs` (main.py:60-64) against the store: copy the
global dict into a fresh cell, update that cell in place with the dataset
dict, return the fresh reference. Dangling references leave the store
untouched (the Python call would have raised before reaching the method). -/
def merge_configs_ref (s : Store) (g l : Nat) : Store × Nat :=
  match s.read g, s.read l with
  | some gd, some ld =>
    let a := s.alloc gd
    ((a.1.write a.2 (dictUpdate gd ld)), a.2)
  | _, _ => (s, 0)

/-- Claim C7: `_merge_configs` mutates neither input — after the call both
references still read their original dicts, the returned reference holds the
pure merge — and an absent local section is treated as an empty mapping
(merging with the empty dict returns the global dict unchanged, and the
effective metadata of a spec with no `metadata` key is the global config). -/
theorem merge_configs_no_mutation (s : Store) (g l : Nat) (gd ld : Dict Val)
    (hg : s.read g = some gd) (hl : s.read l = some ld) :
    (merge_configs_ref s g l).1.read g = some gd ∧
    (merge_configs_ref s g l).1.read l = some ld ∧
    (merge_configs_ref s g l).1.read (merge_configs_ref s g l).2 =
      some (merge_configs gd ld) ∧
    merge_configs gd [] = gd ∧
    effectiveMetadata gd {} = gd := by
  have hgl : g < s.cells.length := by
    by_contra hge
    rw [Store.read, List.getElem?_eq_none (Nat.le_of_not_lt hge)] at hg
    exact Option.noConfusion hg
  have hll : l < s.cells.length := by
    by_contra hge
    rw [Store.read, List.getElem?_eq_none (Nat.le_of_not_lt hge)] at hl
    exact Option.noConfusion hl
  have hm : merge_configs_ref s g l =
      (⟨(s.cells ++ [gd]).set s.cells.length (dictUpdate gd ld)⟩, s.cells.length) := by
    rw [merge_configs_ref, hg, hl]
    rfl
  refine ⟨?_, ?_, ?_, rfl, rfl⟩
  · rw [hm, Store.read]
    rw [List.getElem?_set_ne (Nat.ne_of_gt hgl)]
    rw [List.getElem?_append_left hgl]
    exact hg
  · rw [hm, Store.read]
    rw [List.getElem?_set_ne (Nat.ne_of_gt hll)]
    rw [List.getElem?_append_left hll]
    exact hl
  · rw [hm, Store.read]
    rw [List.getElem?_set_self (by simp)]
    rfl

/-- Witness for C7 at a concrete two-cell store. -/
theorem merge_configs_no_mutation_witness :
    (merge_configs_ref ⟨[[("a", .vInt 1)], [("b", .vInt 2)]]⟩ 0 1).1.read 0 =
      some [("a", .vInt 1)] :=
  (merge_configs_no_mutation ⟨[[("a", .vInt 1)], [("b", .vInt 2)]]⟩ 0 1
    [("a", .vInt 1)] [("b", .vInt 2)] rfl rfl).1

/-! ### Table-shape helpers and lemmas -/

/-- `metadata_config.get('enable', False)`, under Python truthiness. -/
def metadataEnabled (mcfg : Dict Val) : Bool :=
  asBool ((dictGet? mcfg "enable").getD (.vBool false))

/-- `metadata_config.get('fields', [])` as a list of values. -/
def metadataFields (mcfg : Dict Val) : List Val :=
  asList ((dictGet? mcfg "fields").getD (.vList []))

/-- The metadata names the loop acts on: the string entries among the four
recognized names, in requested order. Everything else is skipped. -/
def recognizedMeta : List Val → List String
  | [] => []
  | .vStr s :: rest =>
    if s = "created_at" ∨ s = "modified_at" ∨ s = "created_by" ∨ s = "modified_by"
    then s :: recognizedMeta rest else recognizedMeta rest
  | _ :: rest => recognizedMeta rest

/-- The column the metadata loop assigns for a recognized name. -/
def metaColumn (env : Env) (n : Nat) (s : String) : List Val :=
  if s = "created_at" ∨ s = "modified_at" then (List.range n).map env.now
  else (List.range n).map env.nameGen

/-- The column the field loop assigns for a field whose type is registered. -/
def fieldColumn (env : Env) (n : Nat) (f : Field) : List Val :=
  match env.methods f.ftype with
  | some gen => (List.range n).map gen
  | none => []

theorem applyMetadata_eq (env : Env) (n : Nat) (mcfg : Dict Val) (d : Dict (List Val)) :
    applyMetadata env n mcfg d =
      if metadataEnabled mcfg then metaLoop env n (metadataFields mcfg) d else d := rfl

theorem mem_dictInsert {V : Type} (d : Dict V) (k : String) (v : V) (kv : String × V)
    (h : kv ∈ dictInsert d k v) : kv = (k, v) ∨ kv ∈ d := by
  induction d with
  | nil => simpa [dictInsert] using h
  | cons kv0 rest ih =>
    obtain ⟨k0, v0⟩ := kv0
    by_cases h0 : k0 = k
    · simp only [dictInsert, if_pos h0, List.mem_cons] at h
      rcases h with h | h
      · exact .inl h
      · exact .inr (List.mem_cons_of_mem _ h)
    · simp only [dictInsert, if_neg h0, List.mem_cons] at h
      rcases h with h | h
      · exact .inr (by simp [h])
      · rcases ih h with h' | h'
        · exact .inl h'
        · exact .inr (List.mem_cons_of_mem _ h')

theorem dictInsert_eq_append {V : Type} (d : Dict V) (k : String) (v : V)
    (h : k ∉ dictKeys d) : dictInsert d k v = d ++ [(k, v)] := by
  induction d with
  | nil => rfl
  | cons kv0 rest ih =>
    obtain ⟨k0, v0⟩ := kv0
    simp only [dictKeys, List.map_cons, List.mem_cons] at h
    push_neg at h
    have h0 : ¬ k0 = k := fun he => h.1 he.symm
    simp [dictInsert, h0, ih (by simpa [dictKeys] using h.2)]

theorem dictKeys_dictInsert_of_mem {V : Type} (d : Dict V) (k : String) (v : V)
    (h : k ∈ dictKeys d) : dictKeys (dictInsert d k v) = dictKeys d := by
  induction d with
  | nil => simp [dictKeys] at h
  | cons kv0 rest ih =>
    obtain ⟨k0, v0⟩ := kv0
    by_cases h0 : k0 = k
    · simp [dictInsert, h0, dictKeys]
    · simp only [dictKeys, List.map_cons, List.mem_cons] at h
      rcases h with h | h
      · exact absurd h.symm h0
      · have ih' := ih (by simpa [dictKeys] using h)
        simp only [dictKeys] at ih'
        simp [dictInsert, h0, dictKeys, ih']

/-! ### Column-length lemmas (claim C2) -/

theorem buildFields_lengths (env : Env) (n : Nat) (fs : List Field)
    (d t : Dict (List Val)) (hd : ∀ kv ∈ d, kv.2.length = n)
    (ht : buildFields env n fs d = .ok t) : ∀ kv ∈ t, kv.2.length = n := by
  induction fs generalizing d with
  | nil =>
    simp only [buildFields] at ht
    cases ht
    exact hd
  | cons f rest ih =>
    simp only [buildFields] at ht
    cases hm : env.methods f.ftype with
    | none => rw [hm] at ht; cases ht
    | some gen =>
      rw [hm] at ht
      refine ih (dictInsert d f.name ((List.range n).map gen)) ?_ ht
      intro kv hkv
      rcases mem_dictInsert _ _ _ _ hkv with h | h
      · subst h; simp
      · exact hd kv h

theorem metaStep_lengths (env : Env) (n : Nat) (d : Dict (List Val)) (mf : Val)
    (hd : ∀ kv ∈ d, kv.2.length = n) : ∀ kv ∈ metaStep env n d mf, kv.2.length = n := by
  intro kv hkv
  cases mf with
  | vStr s =>
    simp only [metaStep] at hkv
    by_cases h1 : s = "created_at" ∨ s = "modified_at"
    · rw [if_pos h1] at hkv
      rcases mem_dictInsert _ _ _ _ hkv with h | h
      · subst h; simp
      · exact hd kv h
    · rw [if_neg h1] at hkv
      by_cases h2 : s = "created_by" ∨ s = "modified_by"
      · rw [if_pos h2] at hkv
        rcases mem_dictInsert _ _ _ _ hkv with h | h
        · subst h; simp
        · exact hd kv h
      · rw [if_neg h2] at hkv
        exact hd kv hkv
  | vInt m => exact hd kv hkv
  | vBool b => exact hd kv hkv
  | vList l => exact hd kv hkv

theorem metaLoop_lengths (env : Env) (n : Nat) (ms : List Val)
    (d : Dict (List Val)) (hd : ∀ kv ∈ d, kv.2.length = n) :
    ∀ kv ∈ metaLoop env n ms d, kv.2.length = n := by
  induction ms generalizing d with
  | nil => exact hd
  | cons mf rest ih => exact ih _ (metaStep_lengths env n d mf hd)

theorem buildTable_lengths (env : Env) (n : Nat) (fs : List Field) (mcfg : Dict Val)
    (t : Dict (List Val)) (ht : buildTable env n fs mcfg = .ok t) :
    ∀ kv ∈ t, kv.2.length = n := by
  rw [buildTable] at ht
  cases hb : buildFields env n fs [] with
  | error e => rw [hb] at ht; cases ht
  | ok d =>
    rw [hb] at ht
    cases ht
    have hd := buildFields_lengths env n fs [] d (by simp) hb
    rw [applyMetadata_eq]
    by_cases he : metadataEnabled mcfg
    · rw [if_pos he]
      exact metaLoop_lengths env n _ d hd
    · rw [if_neg he]
      exact hd

/-- Claim C2: every column of the built table — field columns and metadata
columns alike — has length exactly the resolved `rows` value, which defaults
to 100 when the dataset spec omits `rows`. (`rows` is a positive integer by
the configuration data model, hence the nonnegativity hypothesis; the
zero/negative escape hatch is claim C10.) -/
theorem row_count_invariant (env : Env) (gm : Dict Val) (dc : DatasetConfig)
    (t : Dict (List Val)) (hr : 0 ≤ resolvedRows dc)
    (ht : buildTable env (resolvedRows dc).toNat (dc.fields.getD [])
      (effectiveMetadata gm dc) = .ok t) :
    (∀ kv ∈ t, (kv.2.length : Int) = resolvedRows dc) ∧
    (dc.rows = none → resolvedRows dc = 100) := by
  constructor
  · intro kv hkv
    have h := buildTable_lengths env _ _ _ t ht kv hkv
    rw [h, Int.toNat_of_nonneg hr]
  · intro h
    simp [resolvedRows, h]

/-- A concrete environment where only the Faker method `name` is registered. -/
def envW : Env :=
  { methods := fun s => if s = "name" then some (fun i => .vInt i) else none
    nameGen := fun i => .vInt (1000 + i)
    now := fun _ => .vInt 7 }

/-- A two-row dataset spec with one `name`-typed field. -/
def dcW : DatasetConfig :=
  { rows := some 2, fields := some [⟨"a", "name"⟩] }

/-- Witness for C2 at a concrete two-row dataset. -/
theorem row_count_invariant_witness :
    (0 : Int) ≤ resolvedRows dcW ∧
    ∀ kv ∈ [("a", [Val.vInt 0, Val.vInt 1])], ((kv.2.length : Int) = resolvedRows dcW) :=
  ⟨by norm_num [resolvedRows, dcW],
   (row_count_invariant envW [] dcW [("a", [Val.vInt 0, Val.vInt 1])]
     (by norm_num [resolvedRows, dcW]) rfl).1⟩

/-! ### Column-order lemmas (claims C4 and C8) -/

theorem dictKeys_append {V : Type} (d e : Dict V) :
    dictKeys (d ++ e) = dictKeys d ++ dictKeys e := by
  simp [dictKeys]

theorem buildFields_eq (env : Env) (n : Nat) (fs : List Field) (d : Dict (List Val))
    (hreg : ∀ f ∈ fs, (env.methods f.ftype).isSome = true)
    (hnodup : (fs.map Field.name).Nodup)
    (hdisj : ∀ f ∈ fs, f.name ∉ dictKeys d) :
    buildFields env n fs d = .ok (d ++ fs.map fun f => (f.name, fieldColumn env n f)) := by
  induction fs generalizing d with
  | nil => simp [buildFields]
  | cons f rest ih =>
    have hm := hreg f (by simp)
    cases hgen : env.methods f.ftype with
    | none => rw [hgen] at hm; cases hm
    | some gen =>
      have hcol : (List.range n).map gen = fieldColumn env n f := by
        simp [fieldColumn, hgen]
      simp only [List.map_cons, List.nodup_cons] at hnodup
      have hdisj2 : ∀ g ∈ rest, g.name ∉ dictKeys (d ++ [(f.name, fieldColumn env n f)]) := by
        intro g hg
        rw [dictKeys_append]
        simp only [List.mem_append]
        push_neg
        refine ⟨hdisj g (by simp [hg]), ?_⟩
        intro hgk
        simp only [dictKeys, List.map_cons, List.map_nil, List.mem_cons] at hgk
        rcases hgk with hgk | hgk
        · exact hnodup.1 (hgk ▸ List.mem_map_of_mem Field.name hg)
        · simp at hgk
      simp only [buildFields, hgen]
      rw [dictInsert_eq_append d f.name _ (hdisj f (by simp)), hcol]
      rw [ih (d ++ [(f.name, fieldColumn env n f)])
        (fun g hg => hreg g (by simp [hg])) hnodup.2 hdisj2]
      rw [List.append_assoc]
      rfl

theorem metaStep_recognized (env : Env) (n : Nat) (d : Dict (List Val)) (s : String)
    (h4 : s = "created_at" ∨ s = "modified_at" ∨ s = "created_by" ∨ s = "modified_by") :
    metaStep env n d (.vStr s) = dictInsert d s (metaColumn env n s) := by
  by_cases h1 : s = "created_at" ∨ s = "modified_at"
  · simp [metaStep, h1, metaColumn]
  · have h2 : s = "created_by" ∨ s = "modified_by" := by tauto
    simp [metaStep, h1, h2, metaColumn]

theorem metaStep_unrecognized (env : Env) (n : Nat) (d : Dict (List Val)) (s : String)
    (h4 : ¬(s = "created_at" ∨ s = "modified_at" ∨ s = "created_by" ∨ s = "modified_by")) :
    metaStep env n d (.vStr s) = d := by
  have h1 : ¬(s = "created_at" ∨ s = "modified_at") := by tauto
  have h2 : ¬(s = "created_by" ∨ s = "modified_by") := by tauto
  simp [metaStep, h1, h2]

theorem metaLoop_eq (env : Env) (n : Nat) (ms : List Val) (d : Dict (List Val))
    (hnodup : (recognizedMeta ms).Nodup)
    (hdisj : ∀ s ∈ recognizedMeta ms, s ∉ dictKeys d) :
    metaLoop env n ms d = d ++ (recognizedMeta ms).map fun s => (s, metaColumn env n s) := by
  induction ms generalizing d with
  | nil => simp [metaLoop, recognizedMeta]
  | cons mf rest ih =>
    cases mf with
    | vStr s =>
      by_cases h4 : s = "created_at" ∨ s = "modified_at" ∨ s = "created_by" ∨ s = "modified_by"
      · have hrec : recognizedMeta (.vStr s :: rest) = s :: recognizedMeta rest := by
          simp [recognizedMeta, h4]
        rw [hrec] at hnodup hdisj
        simp only [List.nodup_cons] at hnodup
        have hsd : s ∉ dictKeys d := hdisj s (by simp)
        have hdisj2 : ∀ q ∈ recognizedMeta rest, q ∉ dictKeys (d ++ [(s, metaColumn env n s)]) := by
          intro q hq
          rw [dictKeys_append]
          simp only [List.mem_append]
          push_neg
          refine ⟨hdisj q (by simp [hq]), ?_⟩
          intro hqk
          simp only [dictKeys, List.map_cons, List.map_nil, List.mem_cons] at hqk
          rcases hqk with hqk | hqk
          · exact hnodup.1 (hqk ▸ hq)
          · simp at hqk
        rw [hrec]
        simp only [metaLoop]
        rw [metaStep_recognized env n d s h4]
        rw [dictInsert_eq_append d s _ hsd]
        rw [ih (d ++ [(s, metaColumn env n s)]) hnodup.2 hdisj2]
        rw [List.append_assoc]
        rfl
      · have hrec : recognizedMeta (.vStr s :: rest) = recognizedMeta rest := by
          simp [recognizedMeta, h4]
        rw [hrec] at hnodup hdisj
        rw [hrec]
        simp only [metaLoop]
        rw [metaStep_unrecognized env n d s h4]
        exact ih d hnodup hdisj
    | vInt m =>
      have hrec : recognizedMeta (.vInt m :: rest) = recognizedMeta rest := by
        simp [recognizedMeta]
      rw [hrec] at hnodup hdisj
      rw [hrec]
      simp only [metaLoop, metaStep]
      exact ih d hnodup hdisj
    | vBool b =>
      have hrec : recognizedMeta (.vBool b :: rest) = recognizedMeta rest := by
        simp [recognizedMeta]
      rw [hrec] at hnodup hdisj
      rw [hrec]
      simp only [metaLoop, metaStep]
      exact ih d hnodup hdisj
    | vList l =>
      have hrec : recognizedMeta (.vList l :: rest) = recognizedMeta rest := by
        simp [recognizedMeta]
      rw [hrec] at hnodup hdisj
      rw [hrec]
      simp only [metaLoop, metaStep]
      exact ih d hnodup hdisj

theorem dictKeys_fieldCols (env : Env) (n : Nat) (fields : List Field) :
    dictKeys (fields.map fun f => (f.name, fieldColumn env n f)) = fields.map Field.name := by
  induction fields with
  | nil => rfl
  | cons f rest ih => simp only [List.map_cons, dictKeys, List.map_map] at ih ⊢; simp [ih]

theorem dictKeys_metaCols (env : Env) (n : Nat) (ms : List String) :
    dictKeys (ms.map fun s => (s, metaColumn env n s)) = ms := by
  induction ms with
  | nil => rfl
  | cons s rest ih => simp only [List.map_cons, dictKeys, List.map_map] at ih ⊢; simp [ih]

/-- Claim C4: metadata columns appear iff the effective metadata config's
`enable` is truthy (absent means false); when present, column order is the
declared fields in declaration order followed by the recognized requested
metadata names in the order listed; unrecognized metadata names are skipped
without error. Field names are unique per the data model and the collision of
a metadata name with a declared field is claim C8, hence the nodup and
disjointness hypotheses. -/
theorem column_order_and_metadata_gating (env : Env) (n : Nat) (fields : List Field)
    (mcfg : Dict Val)
    (hreg : ∀ f ∈ fields, (env.methods f.ftype).isSome = true)
    (hnodup : (fields.map Field.name).Nodup)
    (hmnodup : (recognizedMeta (metadataFields mcfg)).Nodup)
    (hdisj : ∀ s ∈ recognizedMeta (metadataFields mcfg), s ∉ fields.map Field.name) :
    ∃ t, buildTable env n fields mcfg = .ok t ∧
      dictKeys t = fields.map Field.name ++
        (if metadataEnabled mcfg then recognizedMeta (metadataFields mcfg) else []) := by
  have hb := buildFields_eq env n fields [] hreg hnodup (by simp [dictKeys])
  rw [List.nil_append] at hb
  have hkeys := dictKeys_fieldCols env n fields
  refine ⟨applyMetadata env n mcfg (fields.map fun f => (f.name, fieldColumn env n f)), ?_, ?_⟩
  · rw [buildTable, hb]
    rfl
  · rw [applyMetadata_eq]
    by_cases he : metadataEnabled mcfg
    · rw [if_pos he, if_pos he]
      rw [metaLoop_eq env n _ _ hmnodup (by rw [hkeys]; exact hdisj)]
      rw [dictKeys_append, hkeys, dictKeys_metaCols]
    · rw [if_neg he, if_neg he, hkeys, List.append_nil]

/-- The metadata config used by the C4 witness: metadata enabled, one
recognized and one unrecognized requested name. -/
def mcfgW : Dict Val :=
  [("enable", .vBool true), ("fields", .vList [.vStr "created_at", .vStr "bogus"])]

/-- Witness for C4: one `name` field plus enabled metadata requesting
`created_at` and the unrecognized `bogus` yields columns `a, created_at`. -/
theorem column_order_and_metadata_gating_witness :
    ∃ t, buildTable envW 2 [⟨"a", "name"⟩] mcfgW = .ok t ∧
      dictKeys t = ["a", "created_at"] := by
  have h := column_order_and_metadata_gating envW 2 [⟨"a", "name"⟩] mcfgW
    (by decide) (by decide) (by decide) (by decide)
  exact h

/-- One metadata step changes the key sequence either not at all (the name is
unrecognized, or already a column) or by appending one fresh key. -/
theorem dictKeys_metaStep (env : Env) (n : Nat) (d : Dict (List Val)) (mf : Val) :
    dictKeys (metaStep env n d mf) = dictKeys d ∨
    ∃ q, q ∉ dictKeys d ∧ dictKeys (metaStep env n d mf) = dictKeys d ++ [q] := by
  cases mf with
  | vStr s =>
    by_cases h4 : s = "created_at" ∨ s = "modified_at" ∨ s = "created_by" ∨ s = "modified_by"
    · rw [metaStep_recognized env n d s h4]
      by_cases hm : s ∈ dictKeys d
      · exact .inl (dictKeys_dictInsert_of_mem d s _ hm)
      · refine .inr ⟨s, hm, ?_⟩
        rw [dictInsert_eq_append d s _ hm, dictKeys_append]
        rfl
    · rw [metaStep_unrecognized env n d s h4]
      exact .inl rfl
  | vInt m => exact .inl rfl
  | vBool b => exact .inl rfl
  | vList l => exact .inl rfl

/-- The metadata loop only ever appends fresh columns after the existing ones:
every column name present before the loop keeps its position. -/
theorem dictKeys_metaLoop (env : Env) (n : Nat) (ms : List Val) (d : Dict (List Val)) :
    ∃ extra, dictKeys (metaLoop env n ms d) = dictKeys d ++ extra ∧
      ∀ q ∈ extra, q ∉ dictKeys d := by
  induction ms generalizing d with
  | nil => exact ⟨[], by simp [metaLoop], by simp⟩
  | cons mf rest ih =>
    simp only [metaLoop]
    obtain ⟨extra, he, hfresh⟩ := ih (metaStep env n d mf)
    rcases dictKeys_metaStep env n d mf with h | ⟨q, hq, h⟩
    · rw [h] at he hfresh
      exact ⟨extra, he, hfresh⟩
    · rw [h] at he hfresh
      refine ⟨q :: extra, ?_, ?_⟩
      · rw [he, List.append_assoc]
        rfl
      · intro p hp
        rcases List.mem_cons.mp hp with hp | hp
        · exact hp ▸ hq
        · exact fun hcon => hfresh p hp (List.mem_append_left _ hcon)

/-- A name that does not occur among the recognized requested names is left
alone by the metadata loop. -/
theorem dictGet?_metaLoop_not_mem (env : Env) (n : Nat) (ms : List Val)
    (d : Dict (List Val)) (s : String) (hs : s ∉ recognizedMeta ms) :
    dictGet? (metaLoop env n ms d) s = dictGet? d s := by
  induction ms generalizing d with
  | nil => rfl
  | cons mf rest ih =>
    cases mf with
    | vStr q =>
      by_cases h4 : q = "created_at" ∨ q = "modified_at" ∨ q = "created_by" ∨ q = "modified_by"
      · have hrec : recognizedMeta (.vStr q :: rest) = q :: recognizedMeta rest := by
          simp [recognizedMeta, h4]
        rw [hrec] at hs
        simp only [List.mem_cons] at hs
        push_neg at hs
        simp only [metaLoop, metaStep_recognized env n d q h4]
        rw [ih _ hs.2, dictGet?_dictInsert]
        rw [if_neg (fun h => hs.1 h.symm)]
      · have hrec : recognizedMeta (.vStr q :: rest) = recognizedMeta rest := by
          simp [recognizedMeta, h4]
        rw [hrec] at hs
        simp only [metaLoop, metaStep_unrecognized env n d q h4]
        exact ih d hs
    | vInt m =>
      simp only [metaLoop, metaStep]
      exact ih d (by simpa [recognizedMeta] using hs)
    | vBool b =>
      simp only [metaLoop, metaStep]
      exact ih d (by simpa [recognizedMeta] using hs)
    | vList l =>
      simp only [metaLoop, metaStep]
      exact ih d (by simpa [recognizedMeta] using hs)

/-- After the metadata loop, every recognized requested name holds its
metadata column, whatever was at that key beforehand. -/
theorem dictGet?_metaLoop_mem (env : Env) (n : Nat) (ms : List Val)
    (d : Dict (List Val)) (s : String) (hs : s ∈ recognizedMeta ms) :
    dictGet? (metaLoop env n ms d) s = some (metaColumn env n s) := by
  induction ms generalizing d with
  | nil => simp [recognizedMeta] at hs
  | cons mf rest ih =>
    cases mf with
    | vStr q =>
      by_cases h4 : q = "created_at" ∨ q = "modified_at" ∨ q = "created_by" ∨ q = "modified_by"
      · have hrec : recognizedMeta (.vStr q :: rest) = q :: recognizedMeta rest := by
          simp [recognizedMeta, h4]
        rw [hrec] at hs
        by_cases hsr : s ∈ recognizedMeta rest
        · simp only [metaLoop]
          exact ih _ hsr
        · have hsq : s = q := by
            rcases List.mem_cons.mp hs with h | h
            · exact h
            · exact absurd h hsr
          subst hsq
          simp only [metaLoop, metaStep_recognized env n d s h4]
          rw [dictGet?_metaLoop_not_mem env n rest _ s hsr, dictGet?_dictInsert, if_pos rfl]
      · have hrec : recognizedMeta (.vStr q :: rest) = recognizedMeta rest := by
          simp [recognizedMeta, h4]
        rw [hrec] at hs
        simp only [metaLoop, metaStep_unrecognized env n d q h4]
        exact ih d hs
    | vInt m =>
      simp only [metaLoop, metaStep]
      exact ih d (by simpa [recognizedMeta] using hs)
    | vBool b =>
      simp only [metaLoop, metaStep]
      exact ih d (by simpa [recognizedMeta] using hs)
    | vList l =>
      simp only [metaLoop, metaStep]
      exact ih d (by simpa [recognizedMeta] using hs)

/-- Claim C8: when metadata is enabled and a recognized requested metadata
name `s` — any of the four, anywhere in the request list — equals a declared
field's name, the built table holds that column exactly once; the first
`fields.length` columns are still exactly the declared field names in
declaration order (so the colliding column keeps the field's position rather
than moving after the field columns), and its values are the metadata column
that replaced the generated one in place. -/
theorem metadata_collision_in_place (env : Env) (n : Nat) (fields : List Field)
    (mcfg : Dict Val) (s : String)
    (hreg : ∀ f ∈ fields, (env.methods f.ftype).isSome = true)
    (hnodup : (fields.map Field.name).Nodup)
    (hen : metadataEnabled mcfg = true)
    (hs : s ∈ recognizedMeta (metadataFields mcfg))
    (hmem : s ∈ fields.map Field.name) :
    ∃ t, buildTable env n fields mcfg = .ok t ∧
      (dictKeys t).count s = 1 ∧
      (dictKeys t).take fields.length = fields.map Field.name ∧
      dictGet? t s = some (metaColumn env n s) := by
  have hb := buildFields_eq env n fields [] hreg hnodup (by simp [dictKeys])
  rw [List.nil_append] at hb
  have hkeys := dictKeys_fieldCols env n fields
  have happ : applyMetadata env n mcfg (fields.map fun f => (f.name, fieldColumn env n f)) =
      metaLoop env n (metadataFields mcfg)
        (fields.map fun f => (f.name, fieldColumn env n f)) := by
    rw [applyMetadata_eq, if_pos hen]
  obtain ⟨extra, he, hfresh⟩ :=
    dictKeys_metaLoop env n (metadataFields mcfg) (fields.map fun f => (f.name, fieldColumn env n f))
  rw [hkeys] at he hfresh
  refine ⟨applyMetadata env n mcfg (fields.map fun f => (f.name, fieldColumn env n f)),
    ?_, ?_, ?_, ?_⟩
  · rw [buildTable, hb]
    rfl
  · rw [happ, he, List.count_append]
    rw [List.count_eq_one_of_mem hnodup hmem]
    rw [List.count_eq_zero_of_not_mem (fun hc => hfresh s hc hmem)]
  · rw [happ, he, List.take_left' (by simp)]
  · rw [happ]
    exact dictGet?_metaLoop_mem env n (metadataFields mcfg) _ s hs

/-- The metadata config used by the C8 witness: enabled, requesting the
non-colliding `created_at` and then `modified_by`, which collides with a
declared field below. -/
def mcfgW8 : Dict Val :=
  [("enable", .vBool true), ("fields", .vList [.vStr "created_at", .vStr "modified_by"])]

/-- Witness for C8: fields `x, modified_by` with metadata requesting
`created_at, modified_by` keep `modified_by` as the second column, exactly
once, holding the synthesized-name values, while `created_at` is appended. -/
theorem metadata_collision_in_place_witness :
    ∃ t, buildTable envW 1 [⟨"x", "name"⟩, ⟨"modified_by", "name"⟩] mcfgW8 = .ok t ∧
      (dictKeys t).count "modified_by" = 1 ∧
      (dictKeys t).take 2 = ["x", "modified_by"] ∧
      dictGet? t "modified_by" = some [Val.vInt 1000] := by
  have h := metadata_collision_in_place envW 1 [⟨"x", "name"⟩, ⟨"modified_by", "name"⟩]
    mcfgW8 "modified_by" (by decide) (by decide) rfl (by decide) (by decide)
  exact h

/-! ### Success of the build under registered field types -/

theorem buildFields_isOk (env : Env) (n : Nat) (fs : List Field) (d : Dict (List Val))
    (hreg : ∀ f ∈ fs, (env.methods f.ftype).isSome = true) :
    ∃ t, buildFields env n fs d = .ok t := by
  induction fs generalizing d with
  | nil => exact ⟨d, rfl⟩
  | cons f rest ih =>
    have hm := hreg f (by simp)
    cases hgen : env.methods f.ftype with
    | none => rw [hgen] at hm; cases hm
    | some gen =>
      simp only [buildFields, hgen]
      exact ih _ (fun g hg => hreg g (by simp [hg]))

theorem buildTable_isOk (env : Env) (n : Nat) (fs : List Field) (mcfg : Dict Val)
    (hreg : ∀ f ∈ fs, (env.methods f.ftype).isSome = true) :
    ∃ t, buildTable env n fs mcfg = .ok t := by
  obtain ⟨t, ht⟩ := buildFields_isOk env n fs [] hreg
  exact ⟨applyMetadata env n mcfg t, by rw [buildTable, ht]; rfl⟩

/-! ### Claim C5: unsupported output formats -/

/-- Claim C5: when the effective output `format` is neither `csv` nor `tsv`,
the dataset's write is skipped (no `FileWrite`), the diagnostic line is
logged, no exception propagates, and the traversal continues so the remaining
datasets' writes and final outcome are exactly those of running them alone. -/
theorem unsupported_format_skipped (env : Env) (gm go : Dict Val) (name : String)
    (dc : DatasetConfig) (rest : List (String × DatasetConfig))
    (hreg : ∀ f ∈ dc.fields.getD [], (env.methods f.ftype).isSome = true)
    (hcsv : effectiveFormat go dc ≠ "csv") (htsv : effectiveFormat go dc ≠ "tsv") :
    (∃ logs, processDataset env gm go name dc = .ok (logs, none) ∧
      ("Unsupported output format: " ++ effectiveFormat go dc) ∈ logs) ∧
    (runDatasets env gm go ((name, dc) :: rest)).2.1 =
      (runDatasets env gm go rest).2.1 ∧
    (runDatasets env gm go ((name, dc) :: rest)).2.2 =
      (runDatasets env gm go rest).2.2 := by
  obtain ⟨t, ht⟩ := buildTable_isOk env ((resolvedRows dc).toNat) (dc.fields.getD [])
    (effectiveMetadata gm dc) hreg
  have hp : processDataset env gm go name dc =
      .ok (["Generated " ++ toString (resolvedRows dc) ++ " rows for dataset '" ++ name ++ "'",
            "Unsupported output format: " ++ effectiveFormat go dc], none) := by
    simp only [processDataset]
    rw [ht]
    simp only [if_neg hcsv, if_neg htsv]
  refine ⟨⟨_, hp, by simp⟩, ?_, ?_⟩
  · simp only [runDatasets]
    rw [hp]
    rfl
  · simp only [runDatasets]
    rw [hp]

/-- A dataset spec requesting the unsupported output format `json`. -/
def jsonSpec : DatasetConfig :=
  { rows := some 1, fields := some [⟨"b", "name"⟩],
    output := some [("format", .vStr "json")] }

/-- Witness for C5: the `json` format dataset is processed without error, with
no file written and the diagnostic logged. -/
theorem unsupported_format_skipped_witness :
    effectiveFormat [] jsonSpec ≠ "csv" ∧
    ∃ logs, processDataset envW [] [] "j" jsonSpec = .ok (logs, none) ∧
      ("Unsupported output format: " ++ effectiveFormat [] jsonSpec) ∈ logs :=
  ⟨by decide,
   (unsupported_format_skipped envW [] [] "j" jsonSpec []
     (by decide) (by decide) (by decide)).1⟩

/-! ### Claim C10: zero or negative `rows` -/

/-- Claim C10: a dataset spec whose `rows` value is zero or negative builds
without error — nothing validates that `rows` is positive — and every column
of the table (field and metadata alike) has length zero, so a written file
holds only the header row; the dataset is then processed to completion. -/
theorem nonpositive_rows_empty_columns (env : Env) (gm go : Dict Val) (name : String)
    (dc : DatasetConfig)
    (hr : resolvedRows dc ≤ 0)
    (hreg : ∀ f ∈ dc.fields.getD [], (env.methods f.ftype).isSome = true) :
    ∃ t, buildTable env (resolvedRows dc).toNat (dc.fields.getD [])
        (effectiveMetadata gm dc) = .ok t ∧
      (∀ kv ∈ t, kv.2.length = 0) ∧
      ∃ r, processDataset env gm go name dc = .ok r := by
  obtain ⟨t, ht⟩ := buildTable_isOk env ((resolvedRows dc).toNat) (dc.fields.getD [])
    (effectiveMetadata gm dc) hreg
  have hn : (resolvedRows dc).toNat = 0 := Int.toNat_of_nonpos hr
  refine ⟨t, ht, ?_, ?_⟩
  · intro kv hkv
    have hlen := buildTable_lengths env _ _ _ t ht kv hkv
    rw [hn] at hlen
    exact hlen
  · simp only [processDataset, ht]
    by_cases h1 : effectiveFormat go dc = "csv"
    · rw [if_pos h1]; exact ⟨_, rfl⟩
    · rw [if_neg h1]
      by_cases h2 : effectiveFormat go dc = "tsv"
      · rw [if_pos h2]; exact ⟨_, rfl⟩
      · rw [if_neg h2]; exact ⟨_, rfl⟩

/-- A dataset spec with a negative `rows` value. -/
def negSpec : DatasetConfig := { rows := some (-3), fields := some [⟨"a", "name"⟩] }

/-- Witness for C10 at `rows = -3`. -/
theorem nonpositive_rows_empty_columns_witness :
    resolvedRows negSpec ≤ 0 ∧
    ∃ t, buildTable envW (resolvedRows negSpec).toNat [⟨"a", "name"⟩]
        (effectiveMetadata [] negSpec) = .ok t ∧
      (∀ kv ∈ t, kv.2.length = 0) ∧
      ∃ r, processDataset envW [] [] "neg" negSpec = .ok r :=
  ⟨by norm_num [resolvedRows, negSpec],
   nonpositive_rows_empty_columns envW [] [] "neg" negSpec
     (by norm_num [resolvedRows, negSpec]) (by decide)⟩

/-! ### Claim C6: missing configuration file -/

/-- Claim C6: when the configuration path does not exist, loading yields the
empty configuration `{}` rather than an error; the generator constructs with
all section defaults and a run does nothing, quietly. -/
theorem missing_config_defaults (fs : FS) (path : String) (env : Env)
    (h : fs path = none) :
    load_config fs path = some emptyConfig ∧
    initGenerator fs path =
      .ok { conf := emptyConfig, global_metadata := [], global_output := [] } ∧
    generate { conf := emptyConfig, global_metadata := [], global_output := [] } env =
      ([], [], none) := by
  have hl : load_config fs path = some emptyConfig := by
    simp only [load_config]
    rw [h]
  refine ⟨hl, ?_, rfl⟩
  simp only [initGenerator]
  rw [hl]
  rfl

/-- Witness for C6: the everywhere-absent filesystem. -/
theorem missing_config_defaults_witness :
    (fun _ : String => (none : Option (Option Config))) "config/config.yml" = none ∧
    initGenerator (fun _ => none) "config/config.yml" =
      .ok { conf := emptyConfig, global_metadata := [], global_output := [] } :=
  ⟨rfl, (missing_config_defaults (fun _ => none) "config/config.yml" envW rfl).2.1⟩

/-! ### Claim C9: existing file parsing to a null document -/

/-- Claim C9: when the configuration file exists but parses to a null
document, `_load_config` returns that null, and the constructor's
`config.get('global', {})` then fails with `AttributeError` — unlike the
absent-file case, construction does not succeed with defaults. -/
theorem null_config_init_fails (fs : FS) (path : String)
    (h : fs path = some none) :
    load_config fs path = none ∧
    initGenerator fs path =
      .error "AttributeError: 'NoneType' object has no attribute 'get'" := by
  have hl : load_config fs path = none := by
    simp only [load_config]
    rw [h]
  refine ⟨hl, ?_⟩
  simp only [initGenerator]
  rw [hl]

/-- Witness for C9: a filesystem whose config file is an empty YAML document. -/
theorem null_config_init_fails_witness :
    (fun _ : String => (some none : Option (Option Config))) "config/config.yml" = some none ∧
    initGenerator (fun _ => some none) "config/config.yml" =
      .error "AttributeError: 'NoneType' object has no attribute 'get'" :=
  ⟨rfl, (null_config_init_fails (fun _ => some none) "config/config.yml" rfl).2⟩

/-! ### Claim C1: behaviour of the traversal when one dataset fails -/

/-- Claim C1 (amended): `generate` has no exception handler, so the dataset
traversal is best-effort only up to the first failure: a dataset whose build
raises (e.g. an unregistered field `type`) aborts the run and the remaining
datasets are never attempted, while a dataset that is processed without an
exception contributes its logs and optional write and the traversal
continues. -/
theorem dataset_failure_aborts_traversal (env : Env) (gm go : Dict Val) (name : String)
    (dc : DatasetConfig) (rest : List (String × DatasetConfig)) :
    (∀ e, processDataset env gm go name dc = .error e →
      runDatasets env gm go ((name, dc) :: rest) = ([], [], some e)) ∧
    (∀ logs w, processDataset env gm go name dc = .ok (logs, w) →
      runDatasets env gm go ((name, dc) :: rest) =
        (logs ++ (runDatasets env gm go rest).1,
         w.toList ++ (runDatasets env gm go rest).2.1,
         (runDatasets env gm go rest).2.2)) := by
  constructor
  · intro e he
    simp only [runDatasets]
    rw [he]
  · intro logs w hw
    simp only [runDatasets]
    rw [hw]

/-- A dataset spec naming an unregistered generator type. -/
def alphaSpec : DatasetConfig := { rows := some 1, fields := some [⟨"a", "bogus"⟩] }

/-- A well-formed one-row dataset spec. -/
def betaSpec : DatasetConfig := { rows := some 1, fields := some [⟨"b", "name"⟩] }

/-- Witness for the amended C1: the dataset with the unregistered type raises,
and the run aborts without reaching the dataset after it. -/
theorem dataset_failure_aborts_traversal_witness :
    processDataset envW [] [] "alpha" alphaSpec =
      .error "AttributeError: 'Faker' object has no attribute bogus" ∧
    runDatasets envW [] [] [("alpha", alphaSpec), ("beta", betaSpec)] =
      ([], [], some "AttributeError: 'Faker' object has no attribute bogus") :=
  ⟨rfl,
   (dataset_failure_aborts_traversal envW [] [] "alpha" alphaSpec
     [("beta", betaSpec)]).1 _ rfl⟩

/-- A generator whose configuration declares the failing dataset `alpha`
before the well-formed dataset `beta`. -/
def badGen : Generator :=
  { conf := { globalSection := none
              datasets := some [("alpha", alphaSpec), ("beta", betaSpec)] }
    global_metadata := []
    global_output := [] }

/-- Counterexample to C1 as stated: with dataset `alpha` (unregistered field
type) declared before dataset `beta`, the run writes no file at all and the
`AttributeError` escapes `generate` — dataset `beta` is never attempted, even
though running `beta` alone produces its log line and its csv write. -/
theorem dataset_failure_isolation_counterexample :
    (generate badGen envW).2.1 = [] ∧
    (generate badGen envW).2.2 =
      some "AttributeError: 'Faker' object has no attribute bogus" ∧
    runDatasets envW [] [] [("beta", betaSpec)] =
      (["Generated 1 rows for dataset 'beta'"],
       [{ path := "output/beta.csv", sep := ",", table := [("b", [.vInt 0])] }],
       none) :=
  ⟨rfl, rfl, rfl⟩

end DataSapling
